import Mathlib

/-!
# Verification of the U-BRITE tech-demo dashboard pipeline

Shallow embedding of `src/ubrite_tech_demo.py`: a Streamlit dashboard that
fetches clinical demographic data, loads DEG (differentially expressed gene)
results, extracts a gene list, calls the PAGER enrichment service, applies a
user-controlled `GS_SIZE` range filter, and exports the filtered table as CSV.

Data frames are embedded as a list of column names plus rows of
(column, value) cells; pandas operations used by the script
(column assignment, column selection, `drop(columns=...)`, `astype`,
`tolist`, `Series.between`, `to_csv(index=False)`) are translated as
operations on this structure.  Fallible pandas/python operations
(`KeyError` on a missing column, `ValueError` on a failed `astype` or on
`min`/`max` of an empty list) return `Except`.
-/

namespace UBrite

/-- A cell value of a data frame: a string, an integer, or the pandas
missing-value marker NaN (whose python `str()` is the text "nan"). -/
inductive Value where
  | str : String → Value
  | int : Int → Value
  | nan : Value
deriving DecidableEq, Repr

/-- Python `str()` applied to a cell value; `str(float('nan')) = "nan"`. -/
def pyStr : Value → String
  | .str s => s
  | .int n => toString n
  | .nan => "nan"

/-- One data-frame row: an association list from column name to cell value. -/
abbrev Row := List (String × Value)

/-- Look a column up in a row (first matching cell). -/
def rowGet : Row → String → Option Value
  | [], _ => none
  | (k, v) :: t, c => if k = c then some v else rowGet t c

/-- Overwrite (or add) the cell of column `c` in a row,
as pandas column assignment does row-wise. -/
def setCell (r : Row) (c : String) (v : Value) : Row :=
  r.filter (fun p => p.1 ≠ c) ++ [(c, v)]

/-- A data frame: an ordered column schema plus rows of cells. -/
structure Frame where
  columns : List String
  rows : List Row
deriving DecidableEq, Repr

/-- `df[c] = v` — assign a constant value to column `c` in every row;
a new column is appended at the end of the schema (pandas behavior). -/
def Frame.assign (f : Frame) (c : String) (v : Value) : Frame :=
  { columns := if c ∈ f.columns then f.columns else f.columns ++ [c],
    rows := f.rows.map (fun r => setCell r c v) }

/-- `df[[c1, ..., cn]]` — reorder/select columns; `KeyError` when a
requested column is absent from the schema. -/
def Frame.select (f : Frame) (cs : List String) : Except String Frame :=
  if cs.all (fun c => f.columns.contains c) then
    .ok { columns := cs,
          rows := f.rows.map (fun r => cs.map (fun c => (c, (rowGet r c).getD .nan))) }
  else .error "KeyError"

/-- `df.drop(columns=[c])` — remove a column; `KeyError` when absent. -/
def Frame.dropColumn (f : Frame) (c : String) : Except String Frame :=
  if f.columns.contains c then
    .ok { columns := f.columns.filter (fun k => k ≠ c),
          rows := f.rows.map (fun r => r.filter (fun p => p.1 ≠ c)) }
  else .error "KeyError"

/-- `df[c].tolist()` — the column as a list of values; a missing cell of a
present column is the NaN marker; `KeyError` when the column is absent. -/
def Frame.colToList (f : Frame) (c : String) : Except String (List Value) :=
  if f.columns.contains c then
    .ok (f.rows.map (fun r => (rowGet r c).getD .nan))
  else .error "KeyError"

/-! ## Clinical Data Fetcher (`load_demographic_data`, lines 12-27) -/

/-- The age column dropped by both fetch strategies. -/
def ageColumn : String := "Age(in years)"

/-- `load_demographic_data` (remote strategy), applied to the data frame
parsed from the UWS service response after the first two preamble lines are
removed: `df.drop(columns=['Age(in years)'])`. -/
def load_demographic_data (parsedResponse : Frame) : Except String Frame :=
  parsedResponse.dropColumn ageColumn

/-- Modelled from the spec: the LocalFile clinical-fetch strategy (spec 4.2)
is code of this repository not present under `src/` (only the remote variant
is); per the spec it parses a pre-fetched CSV snapshot directly and then
drops the age column unconditionally, same as the remote strategy. -/
def load_demographic_data_local (snapshot : Frame) : Except String Frame :=
  snapshot.dropColumn ageColumn

/-! ## DEG loader (`load_deg_results`, lines 30-40) -/

/-- The fixed 17-column output schema of `load_deg_results` (line 39). -/
def degSchema : List String :=
  ["Sample Name", "Unnamed: 0", "baseMean", "log2FoldChange", "lfcSE", "stat",
   "pvalue", "padj", "symbol", "ensembl", "external_gene", "gene_biotype",
   "description", "chromosome_name", "start_position", "end_position", "strand"]

/-- `load_deg_results`, applied to the frame read from the tab-delimited DEG
file: inject the constant `Sample Name` column (line 36), then reorder to the
fixed 17-column schema (line 39). -/
def load_deg_results (input : Frame) : Except String Frame :=
  (input.assign "Sample Name" (.str "JX12T")).select degSchema

/-! ## Gene List Extractor (line 90) -/

/-- `[x for x in deg_results['symbol'].tolist() if str(x) != 'nan']`. -/
def genesOf (deg_results : Frame) : Except String (List Value) :=
  (deg_results.colToList "symbol").map
    (fun xs => xs.filter (fun x => pyStr x ≠ "nan"))

/-! ## Enrichment Client (`run_pager`, lines 44-62) -/

/-- `params['genes'] = '%20'.join(genes)` (line 48). -/
def pagerGenesParam (genes : List String) : String :=
  String.intercalate "%20" genes

/-- `params['source'] = '%20'.join(sources)` (line 49). -/
def pagerSourceParam (sources : List String) : String :=
  String.intercalate "%20" sources

/-! ## GS_SIZE coercion, slider and range filter (lines 105-119) -/

/-- Wrap an integer into signed 32-bit range, as numpy's `int32` cast does. -/
def toInt32 (n : Int) : Int := (n + 2 ^ 31) % 2 ^ 32 - 2 ^ 31

/-- Read a non-empty run of decimal digits, most significant first;
`none` on any non-digit. -/
def digitsToNat : List Char → Nat → Option Nat
  | [], acc => some acc
  | c :: t, acc =>
    if c.isDigit then digitsToNat t (acc * 10 + (c.toNat - 48)) else none

/-- Python `int(s)` on a decimal string: an optional leading minus sign
followed by at least one digit; anything else raises (here: `none`). -/
def pyInt (s : String) : Option Int :=
  match s.data with
  | [] => none
  | '-' :: t =>
    match t with
    | [] => none
    | _ => (digitsToNat t 0).map (fun n => -(n : Int))
  | l => (digitsToNat l 0).map (fun n => (n : Int))

/-- Coerce one cell to `int32` as `astype({'GS_SIZE': 'int32'})` does per
value: a numeric string is parsed, an integer is cast, NaN fails. -/
def coerceValueInt32 : Value → Option Value
  | .str s => (pyInt s).map (fun n => .int (toInt32 n))
  | .int n => some (.int (toInt32 n))
  | .nan => none

/-- Coerce the `GS_SIZE` cell of every row in turn; `none` as soon as one
row's cell fails to coerce. -/
def coerceRows : List Row → Option (List Row)
  | [] => some []
  | r :: t =>
    match coerceValueInt32 ((rowGet r "GS_SIZE").getD .nan), coerceRows t with
    | some v, some t' => some (setCell r "GS_SIZE" v :: t')
    | _, _ => none

/-- `pager_output.astype({'GS_SIZE': 'int32'})` (line 107): `KeyError` when
the column is absent, `ValueError` when any row's cell fails to coerce. -/
def coerceGsSize (f : Frame) : Except String Frame :=
  if f.columns.contains "GS_SIZE" then
    match coerceRows f.rows with
    | some rows => .ok { columns := f.columns, rows := rows }
    | none => .error "ValueError"
  else .error "KeyError"

/-- The integer carried by an integer cell value, if any. -/
def intOf : Value → Option Int
  | .int n => some n
  | _ => none

/-- Python `min` of a list; raises (here: `none`) on an empty list. -/
def listMin : List Int → Option Int
  | [] => none
  | x :: xs => some (xs.foldl min x)

/-- Python `max` of a list; raises (here: `none`) on an empty list. -/
def listMax : List Int → Option Int
  | [] => none
  | x :: xs => some (xs.foldl max x)

/-- The arguments the script passes to the `st.slider('GS_SIZE Range', ...)`
range-slider widget (line 114): `max_value` and the default `value` pair are
given, `min_value` is not passed. -/
structure SliderArgs where
  minValue : Option Int
  maxValue : Option Int
  defaultValue : Int × Int
deriving DecidableEq, Repr

/-- Line 114: `st.slider('GS_SIZE Range', max_value=max_gs_size,
value=(min_gs_size, max_gs_size))` — no `min_value` argument. -/
def gsSliderArgs (min_gs_size max_gs_size : Int) : SliderArgs :=
  { minValue := none, maxValue := some max_gs_size,
    defaultValue := (min_gs_size, max_gs_size) }

/-- The lower bound the slider widget actually enforces: the passed
`min_value` when present, else the UI framework's documented default for an
integer slider, `0`. -/
def SliderArgs.effectiveMin (a : SliderArgs) : Int :=
  a.minValue.getD 0

/-- One row's `GS_SIZE.between(user_min, user_max)` test (line 115);
`Series.between` is inclusive on both ends by default. -/
def rowGsBetween (r : Row) (lo hi : Int) : Bool :=
  match rowGet r "GS_SIZE" with
  | some (.int v) => decide (lo ≤ v) && decide (v ≤ hi)
  | _ => false

/-- `filtered_output = pager_output[pager_output['GS_SIZE'].between(user_min,
user_max)]` (line 115). -/
def filtered_output (pager_output : Frame) (user_min user_max : Int) : Frame :=
  { columns := pager_output.columns,
    rows := pager_output.rows.filter (fun r => rowGsBetween r user_min user_max) }

/-- Everything the view stage of one render cycle produces
(lines 105-115). -/
structure ViewResult where
  table : Frame
  min_gs_size : Int
  max_gs_size : Int
  slider : SliderArgs
  userRange : Int × Int
  filtered : Frame
deriving DecidableEq, Repr

/-- The view stage of one render cycle (lines 105-115): coerce `GS_SIZE` to
integer, list the sizes, take their min and max (python `min`/`max` raise on
an empty list), build the slider, read the user's range (`none` = the user
left the slider at its default `value`), and filter. -/
def renderView (pager_raw : Frame) (user : Option (Int × Int)) :
    Except String ViewResult :=
  match coerceGsSize pager_raw with
  | .error e => .error e
  | .ok po =>
    match po.colToList "GS_SIZE" with
    | .error e => .error e
    | .ok gsValues =>
      match listMin (gsValues.filterMap intOf), listMax (gsValues.filterMap intOf) with
      | some mn, some mx =>
        .ok { table := po, min_gs_size := mn, max_gs_size := mx,
              slider := gsSliderArgs mn mx,
              userRange := user.getD (mn, mx),
              filtered := filtered_output po (user.getD (mn, mx)).1
                (user.getD (mn, mx)).2 }
      | _, _ => .error "ValueError: empty sequence"

/-! ## Row-level lemmas -/

theorem rowGet_filter_ne (r : Row) (c c' : String) (h : c' ≠ c) :
    rowGet (r.filter (fun p => p.1 ≠ c)) c' = rowGet r c' := by
  induction r with
  | nil => rfl
  | cons p t ih =>
    simp only [ne_eq, decide_not] at ih ⊢
    obtain ⟨k, v⟩ := p
    rw [List.filter_cons]
    by_cases hk : k = c
    · rw [if_neg (by simp [hk])]
      have hne : ¬ k = c' := fun hh => h (hh.symm.trans hk)
      rw [ih]
      simp only [rowGet]
      rw [if_neg hne]
    · rw [if_pos (by simp [hk])]
      simp only [rowGet]
      by_cases hk' : k = c'
      · rw [if_pos hk', if_pos hk']
      · rw [if_neg hk', if_neg hk', ih]

theorem rowGet_setCell_self (r : Row) (c : String) (v : Value) :
    rowGet (setCell r c v) c = some v := by
  unfold setCell
  induction r with
  | nil => simp [rowGet]
  | cons p t ih =>
    simp only [ne_eq, decide_not] at ih ⊢
    obtain ⟨k, w⟩ := p
    rw [List.filter_cons]
    by_cases hk : k = c
    · rw [if_neg (by simp [hk])]
      exact ih
    · rw [if_pos (by simp [hk])]
      simp only [List.cons_append, rowGet]
      rw [if_neg hk]
      exact ih

/-- Everything `drop(columns=[c])` guarantees on success: the column is gone
from the schema, the rest of the schema is kept in order, and every other
column of every row reads back unchanged. -/
theorem dropColumn_spec (f : Frame) (c : String) (out : Frame)
    (h : f.dropColumn c = .ok out) :
    c ∉ out.columns ∧
    out.columns = f.columns.filter (fun k => k ≠ c) ∧
    out.rows = f.rows.map (fun r => r.filter (fun p => p.1 ≠ c)) ∧
    List.Forall₂ (fun rin rout => ∀ c', c' ≠ c → rowGet rout c' = rowGet rin c')
      f.rows out.rows := by
  unfold Frame.dropColumn at h
  split at h
  · obtain rfl : Frame.mk (f.columns.filter (fun k => k ≠ c))
        (f.rows.map (fun r => r.filter (fun p => p.1 ≠ c))) = out :=
      by injection h
    refine ⟨by simp [List.mem_filter], rfl, rfl, ?_⟩
    rw [List.forall₂_map_right_iff]
    rw [List.forall₂_same]
    intro r _ c' hc'
    exact rowGet_filter_ne r c c' hc'
  · exact absurd h (by simp)

/-- C7: both clinical-fetch strategies drop exactly the `Age(in years)`
column and pass every other column of every row through unchanged. -/
theorem clinical_age_column_dropped (resp snap out outl : Frame)
    (h : load_demographic_data resp = .ok out)
    (hl : load_demographic_data_local snap = .ok outl) :
    (ageColumn ∉ out.columns ∧
     out.columns = resp.columns.filter (fun k => k ≠ ageColumn) ∧
     List.Forall₂ (fun rin rout => ∀ c, c ≠ ageColumn → rowGet rout c = rowGet rin c)
       resp.rows out.rows) ∧
    (ageColumn ∉ outl.columns ∧
     outl.columns = snap.columns.filter (fun k => k ≠ ageColumn) ∧
     List.Forall₂ (fun rin rout => ∀ c, c ≠ ageColumn → rowGet rout c = rowGet rin c)
       snap.rows outl.rows) := by
  obtain ⟨h1, h2, _, h4⟩ := dropColumn_spec resp ageColumn out h
  obtain ⟨g1, g2, _, g4⟩ := dropColumn_spec snap ageColumn outl hl
  exact ⟨⟨h1, h2, h4⟩, ⟨g1, g2, g4⟩⟩

/-- A concrete clinical-service response frame (one subject, three columns,
with the sentinel `-1` age value that motivated the removal). -/
def respW : Frame :=
  { columns := ["Patient ID", "Age(in years)", "Sex"],
    rows := [[("Patient ID", .str "p1"), ("Age(in years)", .int (-1)),
              ("Sex", .str "F")]] }

/-- The frame `load_demographic_data` produces on `respW`. -/
def clinW : Frame :=
  { columns := ["Patient ID", "Sex"],
    rows := [[("Patient ID", .str "p1"), ("Sex", .str "F")]] }

theorem clinical_age_column_dropped_witness : ageColumn ∉ clinW.columns :=
  (clinical_age_column_dropped respW respW clinW clinW rfl rfl).1.1

/-- C2: on success, `load_deg_results` emits exactly the fixed 17-column
schema, `Sample Name` is its first column, and every row carries the literal
`"JX12T"` there. -/
theorem deg_sample_name_injected (input out : Frame)
    (h : load_deg_results input = .ok out) :
    out.columns = degSchema ∧
    out.columns.head? = some "Sample Name" ∧
    ∀ r ∈ out.rows, rowGet r "Sample Name" = some (.str "JX12T") := by
  unfold load_deg_results Frame.select at h
  split at h
  · obtain rfl : Frame.mk degSchema
        ((input.assign "Sample Name" (.str "JX12T")).rows.map
          (fun r => degSchema.map (fun c => (c, (rowGet r c).getD .nan)))) = out :=
      by injection h
    refine ⟨rfl, by simp [degSchema], ?_⟩
    intro r hr
    simp only [Frame.assign, List.map_map, List.mem_map] at hr
    obtain ⟨r0, _, rfl⟩ := hr
    simp [degSchema, rowGet, rowGet_setCell_self]
  · exact absurd h (by simp)

/-- A concrete DEG-file frame with the 16 source columns and one row. -/
def degW : Frame :=
  { columns := ["Unnamed: 0", "baseMean", "log2FoldChange", "lfcSE", "stat",
                "pvalue", "padj", "symbol", "ensembl", "external_gene",
                "gene_biotype", "description", "chromosome_name",
                "start_position", "end_position", "strand"],
    rows := [[("Unnamed: 0", .str "ENSG1"), ("baseMean", .str "10.5"),
              ("log2FoldChange", .str "2.0"), ("lfcSE", .str "0.3"),
              ("stat", .str "5.1"), ("pvalue", .str "0.001"),
              ("padj", .str "0.01"), ("symbol", .str "TP53"),
              ("ensembl", .str "ENSG1"), ("external_gene", .str "TP53"),
              ("gene_biotype", .str "protein_coding"),
              ("description", .str "tumor protein"),
              ("chromosome_name", .str "17"), ("start_position", .str "1"),
              ("end_position", .str "2"), ("strand", .str "1")]] }

/-- The frame `load_deg_results` produces on `degW`. -/
def degOutW : Frame :=
  { columns := degSchema,
    rows := [[("Sample Name", .str "JX12T"), ("Unnamed: 0", .str "ENSG1"),
              ("baseMean", .str "10.5"), ("log2FoldChange", .str "2.0"),
              ("lfcSE", .str "0.3"), ("stat", .str "5.1"),
              ("pvalue", .str "0.001"), ("padj", .str "0.01"),
              ("symbol", .str "TP53"), ("ensembl", .str "ENSG1"),
              ("external_gene", .str "TP53"),
              ("gene_biotype", .str "protein_coding"),
              ("description", .str "tumor protein"),
              ("chromosome_name", .str "17"), ("start_position", .str "1"),
              ("end_position", .str "2"), ("strand", .str "1")]] }

theorem deg_sample_name_injected_witness :
    degOutW.columns.head? = some "Sample Name" :=
  (deg_sample_name_injected degW degOutW rfl).2.1

/-! ## Gene List Extractor: claims C3 and C4 -/

/-- C3: the extracted gene list is exactly the symbol column with the
"nan"/missing entries removed: no element reads "nan", none is the missing
marker, source row order is kept (sublist), duplicates are kept (counts). -/
theorem gene_list_no_nan (deg : Frame) (gs : List Value)
    (h : genesOf deg = .ok gs) :
    ∃ symbols, deg.colToList "symbol" = .ok symbols ∧
      gs = symbols.filter (fun x => pyStr x ≠ "nan") ∧
      gs.Sublist symbols ∧
      (∀ x ∈ gs, pyStr x ≠ "nan" ∧ x ≠ Value.nan) ∧
      (∀ v : Value, pyStr v ≠ "nan" → gs.count v = symbols.count v) := by
  unfold genesOf at h
  cases hc : deg.colToList "symbol" with
  | error e => rw [hc] at h; exact absurd h (by simp [Except.map])
  | ok symbols =>
    rw [hc] at h
    simp only [Except.map] at h
    obtain rfl : symbols.filter (fun x => pyStr x ≠ "nan") = gs := by injection h
    refine ⟨symbols, rfl, rfl, List.filter_sublist _, ?_, ?_⟩
    · intro x hx
      rw [List.mem_filter] at hx
      have hx2 : ¬ pyStr x = "nan" := by simpa using hx.2
      exact ⟨hx2, fun hn => hx2 (by rw [hn]; rfl)⟩
    · intro v hv
      exact List.count_filter (by simpa using hv)

/-- A DEG frame whose symbol column runs TP53, NaN, EGFR. -/
def degNanW : Frame :=
  { columns := ["symbol"],
    rows := [[("symbol", .str "TP53")], [("symbol", .nan)],
             [("symbol", .str "EGFR")]] }

theorem gene_list_no_nan_witness :
    genesOf degNanW = .ok [Value.str "TP53", Value.str "EGFR"] ∧
    Value.nan ∉ [Value.str "TP53", Value.str "EGFR"] := by
  refine ⟨rfl, fun hmem => ?_⟩
  obtain ⟨symbols, _, _, _, hno, _⟩ :=
    gene_list_no_nan degNanW [Value.str "TP53", Value.str "EGFR"] rfl
  exact (hno Value.nan hmem).2 rfl

/-- A DEG frame whose symbol column repeats TP53. -/
def degDupW : Frame :=
  { columns := ["symbol"],
    rows := [[("symbol", .str "TP53")], [("symbol", .str "TP53")]] }

/-- C4 fails on the code: the extracted gene list of `degDupW` keeps both
occurrences of TP53, so the gene list is not duplicate-free. -/
theorem gene_list_dedup_counterexample :
    genesOf degDupW = .ok [Value.str "TP53", Value.str "TP53"] ∧
    ¬ ([Value.str "TP53", Value.str "TP53"] : List Value).Nodup :=
  ⟨rfl, by decide⟩

/-- C4 (amended): the gene list is not deduplicated — each symbol that
passes the "nan" filter occurs exactly as often as in the source symbol
column; only null/"nan" symbols are excluded. -/
theorem gene_list_duplicates_preserved (deg : Frame) (gs symbols : List Value)
    (h : genesOf deg = .ok gs) (hc : deg.colToList "symbol" = .ok symbols) :
    (∀ v : Value, pyStr v ≠ "nan" → gs.count v = symbols.count v) ∧
    ∀ x ∈ gs, pyStr x ≠ "nan" := by
  unfold genesOf at h
  rw [hc] at h
  simp only [Except.map] at h
  obtain rfl : symbols.filter (fun x => pyStr x ≠ "nan") = gs := by injection h
  constructor
  · intro v hv
    exact List.count_filter (by simpa using hv)
  · intro x hx
    rw [List.mem_filter] at hx
    simpa using hx.2

/-- A DEG frame whose symbol column runs TP53, NaN, TP53. -/
def degDup2W : Frame :=
  { columns := ["symbol"],
    rows := [[("symbol", .str "TP53")], [("symbol", .nan)],
             [("symbol", .str "TP53")]] }

theorem gene_list_duplicates_preserved_witness :
    ([Value.str "TP53", Value.str "TP53"] : List Value).count (Value.str "TP53")
      = ([Value.str "TP53", Value.nan, Value.str "TP53"] : List Value).count
          (Value.str "TP53") :=
  (gene_list_duplicates_preserved degDup2W
    [Value.str "TP53", Value.str "TP53"]
    [Value.str "TP53", Value.nan, Value.str "TP53"] rfl rfl).1
    (Value.str "TP53") (by decide)

/-! ## Enrichment Client joins: claim C5 -/

theorem intercalate_go_data (s : String) (as : List String) (acc : String) :
    (String.intercalate.go acc s as).data =
      acc.data ++ (as.map (fun a => s.data ++ a.data)).flatten := by
  induction as generalizing acc with
  | nil => simp [String.intercalate.go]
  | cons a t ih => simp [String.intercalate.go, ih, String.data_append]

theorem intercalate_data (s a : String) (as : List String) :
    (String.intercalate s (a :: as)).data =
      a.data ++ (as.map (fun x => s.data ++ x.data)).flatten := by
  rw [String.intercalate, intercalate_go_data]

/-- Any character of an intercalation comes from a joined piece or from the
separator. -/
theorem mem_intercalate_data (c : Char) (s : String) (gs : List String)
    (h : c ∈ (String.intercalate s gs).data) :
    (∃ g ∈ gs, c ∈ g.data) ∨ c ∈ s.data := by
  cases gs with
  | nil => simp [String.intercalate] at h
  | cons a t =>
    rw [intercalate_data] at h
    rcases List.mem_append.mp h with h1 | h2
    · exact .inl ⟨a, by simp, h1⟩
    · rw [List.mem_flatten] at h2
      obtain ⟨l, hl, hcl⟩ := h2
      rw [List.mem_map] at hl
      obtain ⟨x, hx, rfl⟩ := hl
      rcases List.mem_append.mp hcl with h3 | h4
      · exact .inr h3
      · exact .inl ⟨x, List.mem_cons_of_mem a hx, h4⟩

theorem intercalate_go_append (s acc₁ : String) (t : List String) :
    ∀ acc₂ : String, String.intercalate.go (acc₁ ++ acc₂) s t
      = acc₁ ++ String.intercalate.go acc₂ s t := by
  induction t with
  | nil => intro acc₂; simp [String.intercalate.go]
  | cons a t ih =>
    intro acc₂
    simp only [String.intercalate.go]
    rw [String.append_assoc acc₁ acc₂ s, String.append_assoc acc₁ (acc₂ ++ s) a]
    exact ih ((acc₂ ++ s) ++ a)

/-- The separator placed between two consecutive joined pieces is exactly
the separator string. -/
theorem intercalate_cons_cons (s a b : String) (t : List String) :
    String.intercalate s (a :: b :: t) = a ++ s ++ String.intercalate s (b :: t) := by
  show String.intercalate.go a s (b :: t) = a ++ s ++ String.intercalate.go b s t
  show String.intercalate.go ((a ++ s) ++ b) s t = _
  rw [intercalate_go_append s (a ++ s) t b]

/-- C5 fails on the code as universally stated: a gene symbol that itself
contains a space reaches the joined `genes` parameter verbatim, so the
joined string contains a literal space. -/
theorem run_pager_percent20_counterexample :
    pagerGenesParam ["a b"] = "a b" ∧ ' ' ∈ ("a b").data :=
  ⟨rfl, by decide⟩

/-- C5 (amended): provided no individual gene symbol (resp. source name)
contains a space or a `+`, the joined `genes` and `source` parameters
contain no space and no `+`, and consecutive pieces are separated by
exactly the three characters `%20`. -/
theorem run_pager_percent20_join (genes sources : List String)
    (hg : ∀ g ∈ genes, (' ' ∉ g.data) ∧ ('+' ∉ g.data))
    (hs : ∀ s ∈ sources, (' ' ∉ s.data) ∧ ('+' ∉ s.data)) :
    ((' ' ∉ (pagerGenesParam genes).data) ∧ ('+' ∉ (pagerGenesParam genes).data)) ∧
    ((' ' ∉ (pagerSourceParam sources).data) ∧ ('+' ∉ (pagerSourceParam sources).data)) ∧
    (∀ a b : String, ∀ t : List String,
      pagerGenesParam (a :: b :: t) = a ++ "%20" ++ pagerGenesParam (b :: t)) := by
  have key : ∀ (c : Char) (l : List String), c ∉ ("%20").data →
      (∀ g ∈ l, c ∉ g.data) → c ∉ (String.intercalate "%20" l).data := by
    intro c l hc hl hmem
    rcases mem_intercalate_data c "%20" l hmem with ⟨g, hgl, hcg⟩ | hcs
    · exact hl g hgl hcg
    · exact hc hcs
  refine ⟨⟨?_, ?_⟩, ⟨?_, ?_⟩, ?_⟩
  · exact key ' ' genes (by decide) (fun g hgl => (hg g hgl).1)
  · exact key '+' genes (by decide) (fun g hgl => (hg g hgl).2)
  · exact key ' ' sources (by decide) (fun s hsl => (hs s hsl).1)
  · exact key '+' sources (by decide) (fun s hsl => (hs s hsl).2)
  · intro a b t
    exact intercalate_cons_cons "%20" a b t

theorem run_pager_percent20_join_witness :
    (' ' ∉ (pagerGenesParam ["TP53", "EGFR"]).data) ∧
    pagerGenesParam ["TP53", "EGFR"] = "TP53%20EGFR" := by
  refine ⟨?_, by decide⟩
  exact (run_pager_percent20_join ["TP53", "EGFR"] ["KEGG"]
    (by decide) (by decide)).1.1

/-! ## Coercion and view-stage lemmas -/

theorem coerceValueInt32_int (x v : Value) (h : coerceValueInt32 x = some v) :
    ∃ k, v = Value.int k := by
  cases x with
  | str s =>
    cases hp : pyInt s with
    | none => simp [coerceValueInt32, hp] at h
    | some n =>
      simp [coerceValueInt32, hp] at h
      exact ⟨toInt32 n, h.symm⟩
  | int n =>
    simp [coerceValueInt32] at h
    exact ⟨toInt32 n, h.symm⟩
  | nan => simp [coerceValueInt32] at h

theorem coerceRows_ok (rows out : List Row) (h : coerceRows rows = some out) :
    out.length = rows.length ∧
    ∀ r ∈ out, ∃ k, rowGet r "GS_SIZE" = some (.int k) := by
  induction rows generalizing out with
  | nil =>
    obtain rfl : ([] : List Row) = out := by injection h
    exact ⟨rfl, by simp⟩
  | cons r t ih =>
    simp only [coerceRows] at h
    cases hc : coerceValueInt32 ((rowGet r "GS_SIZE").getD .nan) with
    | none => rw [hc] at h; exact Option.noConfusion h
    | some w =>
      rw [hc] at h
      cases ht : coerceRows t with
      | none => rw [ht] at h; exact Option.noConfusion h
      | some t' =>
        rw [ht] at h
        obtain rfl : setCell r "GS_SIZE" w :: t' = out := by injection h
        obtain ⟨hl, hall⟩ := ih t' ht
        refine ⟨by simp [hl], ?_⟩
        intro r' hr'
        rcases List.mem_cons.mp hr' with rfl | hmem
        · obtain ⟨k, rfl⟩ := coerceValueInt32_int _ _ hc
          exact ⟨k, rowGet_setCell_self r "GS_SIZE" (.int k)⟩
        · exact hall r' hmem

theorem coerceRows_none (rows : List Row) (r : Row) (hr : r ∈ rows)
    (hbad : coerceValueInt32 ((rowGet r "GS_SIZE").getD .nan) = none) :
    coerceRows rows = none := by
  induction rows with
  | nil => cases hr
  | cons a t ih =>
    rcases List.mem_cons.mp hr with rfl | hmem
    · simp only [coerceRows]
      rw [hbad]
    · simp only [coerceRows]
      rw [ih hmem]
      cases coerceValueInt32 ((rowGet a "GS_SIZE").getD .nan) <;> rfl

theorem coerceGsSize_ok (f po : Frame) (h : coerceGsSize f = .ok po) :
    f.columns.contains "GS_SIZE" = true ∧ po.columns = f.columns ∧
    coerceRows f.rows = some po.rows := by
  unfold coerceGsSize at h
  split at h
  · cases hr : coerceRows f.rows with
    | none => rw [hr] at h; exact Except.noConfusion h
    | some rows =>
      rw [hr] at h
      obtain rfl : Frame.mk f.columns rows = po := by injection h
      exact ⟨by assumption, rfl, rfl⟩
  · exact Except.noConfusion h

theorem colToList_ok (f : Frame) (c : String) (vals : List Value)
    (h : f.colToList c = .ok vals) :
    f.columns.contains c = true ∧
    vals = f.rows.map (fun r => (rowGet r c).getD .nan) := by
  unfold Frame.colToList at h
  split at h
  · refine ⟨by assumption, ?_⟩
    have := h
    injection this with this
    exact this.symm
  · exact Except.noConfusion h

theorem filterMap_intOf_map (vals : List Value)
    (h : ∀ v ∈ vals, ∃ k, v = Value.int k) :
    (vals.filterMap intOf).map Value.int = vals := by
  induction vals with
  | nil => rfl
  | cons a t ih =>
    obtain ⟨k, rfl⟩ := h a (by simp)
    have ht := ih (fun v hv => h v (List.mem_cons_of_mem _ hv))
    simp [List.filterMap_cons, intOf, ht]

theorem foldl_min_spec (t : List Int) : ∀ x : Int,
    (t.foldl min x = x ∨ t.foldl min x ∈ t) ∧
    t.foldl min x ≤ x ∧ (∀ y ∈ t, t.foldl min x ≤ y) := by
  induction t with
  | nil => intro x; exact ⟨.inl rfl, le_refl x, by simp⟩
  | cons a t ih =>
    intro x
    simp only [List.foldl_cons]
    obtain ⟨hmem, hle, hall⟩ := ih (min x a)
    refine ⟨?_, le_trans hle (min_le_left x a), ?_⟩
    · rcases hmem with he | hm
      · rcases min_choice x a with h1 | h1
        · rw [he, h1]; exact .inl rfl
        · rw [he, h1]; exact .inr (List.mem_cons_self a t)
      · exact .inr (List.mem_cons_of_mem a hm)
    · intro y hy
      rcases List.mem_cons.mp hy with rfl | hm
      · exact le_trans hle (min_le_right x y)
      · exact hall y hm

theorem foldl_max_spec (t : List Int) : ∀ x : Int,
    (t.foldl max x = x ∨ t.foldl max x ∈ t) ∧
    x ≤ t.foldl max x ∧ (∀ y ∈ t, y ≤ t.foldl max x) := by
  induction t with
  | nil => intro x; exact ⟨.inl rfl, le_refl x, by simp⟩
  | cons a t ih =>
    intro x
    simp only [List.foldl_cons]
    obtain ⟨hmem, hle, hall⟩ := ih (max x a)
    refine ⟨?_, le_trans (le_max_left x a) hle, ?_⟩
    · rcases hmem with he | hm
      · rcases max_choice x a with h1 | h1
        · rw [he, h1]; exact .inl rfl
        · rw [he, h1]; exact .inr (List.mem_cons_self a t)
      · exact .inr (List.mem_cons_of_mem a hm)
    · intro y hy
      rcases List.mem_cons.mp hy with rfl | hm
      · exact le_trans (le_max_right x y) hle
      · exact hall y hm

theorem listMin_spec (xs : List Int) (m : Int) (h : listMin xs = some m) :
    m ∈ xs ∧ ∀ y ∈ xs, m ≤ y := by
  cases xs with
  | nil => exact Option.noConfusion h
  | cons x t =>
    obtain rfl : t.foldl min x = m := by injection h
    obtain ⟨hmem, hle, hall⟩ := foldl_min_spec t x
    constructor
    · rcases hmem with he | hm
      · rw [he]; exact List.mem_cons_self x t
      · exact List.mem_cons_of_mem x hm
    · intro y hy
      rcases List.mem_cons.mp hy with rfl | hm
      · exact hle
      · exact hall y hm

theorem listMax_spec (xs : List Int) (m : Int) (h : listMax xs = some m) :
    m ∈ xs ∧ ∀ y ∈ xs, y ≤ m := by
  cases xs with
  | nil => exact Option.noConfusion h
  | cons x t =>
    obtain rfl : t.foldl max x = m := by injection h
    obtain ⟨hmem, hle, hall⟩ := foldl_max_spec t x
    constructor
    · rcases hmem with he | hm
      · rw [he]; exact List.mem_cons_self x t
      · exact List.mem_cons_of_mem x hm
    · intro y hy
      rcases List.mem_cons.mp hy with rfl | hm
      · exact hle
      · exact hall y hm

/-- Dissection of a successful view stage: the coerced table, the integer
`GS_SIZE` column, the min/max, the slider arguments, the user range and the
filtered frame, exactly as lines 105-115 compute them. -/
theorem renderView_ok_anatomy (raw : Frame) (user : Option (Int × Int))
    (v : ViewResult) (h : renderView raw user = .ok v) :
    coerceGsSize raw = .ok v.table ∧
    ∃ sizes : List Int,
      v.table.colToList "GS_SIZE" = .ok (sizes.map Value.int) ∧
      sizes.length = raw.rows.length ∧
      sizes.length = v.table.rows.length ∧
      listMin sizes = some v.min_gs_size ∧
      listMax sizes = some v.max_gs_size ∧
      v.slider = gsSliderArgs v.min_gs_size v.max_gs_size ∧
      v.userRange = user.getD (v.min_gs_size, v.max_gs_size) ∧
      v.filtered = filtered_output v.table v.userRange.1 v.userRange.2 ∧
      (∀ r ∈ v.table.rows, ∃ k, rowGet r "GS_SIZE" = some (Value.int k)) := by
  unfold renderView at h
  split at h
  · exact Except.noConfusion h
  · rename_i po hc
    split at h
    · exact Except.noConfusion h
    · rename_i gsValues hcl
      split at h
      · rename_i mn mx hmn hmx
        obtain rfl : ViewResult.mk po mn mx (gsSliderArgs mn mx)
            (user.getD (mn, mx))
            (filtered_output po (user.getD (mn, mx)).1 (user.getD (mn, mx)).2)
            = v := by injection h
        obtain ⟨hcol, hcols, hrows⟩ := coerceGsSize_ok raw po hc
        obtain ⟨hlen, hints⟩ := coerceRows_ok raw.rows po.rows hrows
        obtain ⟨hcol2, hvals⟩ := colToList_ok po "GS_SIZE" gsValues hcl
        have hallint : ∀ w ∈ gsValues, ∃ k, w = Value.int k := by
          intro w hw
          rw [hvals] at hw
          rw [List.mem_map] at hw
          obtain ⟨r, hrmem, rfl⟩ := hw
          obtain ⟨k, hk⟩ := hints r hrmem
          exact ⟨k, by rw [hk]; rfl⟩
        have hmapeq := filterMap_intOf_map gsValues hallint
        have hlenvals : gsValues.length = po.rows.length := by
          rw [hvals]; exact List.length_map _ _
        have hlenfm : (gsValues.filterMap intOf).length = gsValues.length := by
          have := congrArg List.length hmapeq
          rw [List.length_map] at this
          exact this
        refine ⟨hc, gsValues.filterMap intOf, by rw [hmapeq]; exact hcl, ?_, ?_,
          hmn, hmx, rfl, rfl, rfl, hints⟩
        · rw [hlenfm, hlenvals, hlen]
        · rw [hlenfm, hlenvals]
      · exact Except.noConfusion h

theorem rowGsBetween_iff (r : Row) (lo hi : Int) :
    rowGsBetween r lo hi = true ↔
      ∃ k, rowGet r "GS_SIZE" = some (Value.int k) ∧ lo ≤ k ∧ k ≤ hi := by
  unfold rowGsBetween
  cases hg : rowGet r "GS_SIZE" with
  | none => simp
  | some w => cases w <;> simp

/-! ## Range filter and slider: claims C1, C6, C9, C10 -/

/-- C1: for any chosen range, the filtered rows are exactly the rows of the
coerced table whose `GS_SIZE` lies between the bounds inclusively, and the
default range offered by the slider is the observed minimum and maximum of
`GS_SIZE` over the unfiltered table. -/
theorem gs_range_filter_exact (raw : Frame) (lo hi : Int) (v : ViewResult)
    (h : renderView raw (some (lo, hi)) = .ok v) :
    (∀ r : Row, r ∈ v.filtered.rows ↔
      (r ∈ v.table.rows ∧ ∃ k, rowGet r "GS_SIZE" = some (Value.int k) ∧
        lo ≤ k ∧ k ≤ hi)) ∧
    v.slider.defaultValue = (v.min_gs_size, v.max_gs_size) ∧
    (∃ sizes : List Int,
      v.table.colToList "GS_SIZE" = .ok (sizes.map Value.int) ∧
      v.min_gs_size ∈ sizes ∧ v.max_gs_size ∈ sizes ∧
      ∀ x ∈ sizes, v.min_gs_size ≤ x ∧ x ≤ v.max_gs_size) := by
  obtain ⟨hc, sizes, hcl, hlenraw, hlentab, hmn, hmx, hslider, huser, hfilt, hints⟩ :=
    renderView_ok_anatomy raw (some (lo, hi)) v h
  obtain ⟨hmnmem, hmnle⟩ := listMin_spec sizes _ hmn
  obtain ⟨hmxmem, hmxle⟩ := listMax_spec sizes _ hmx
  refine ⟨?_, ?_, sizes, hcl, hmnmem, hmxmem, fun x hx => ⟨hmnle x hx, hmxle x hx⟩⟩
  · intro r
    rw [hfilt, huser]
    simp only [Option.getD_some]
    unfold filtered_output
    rw [List.mem_filter, rowGsBetween_iff]
  · rw [hslider]; rfl

/-- A concrete PAGER response frame with `GS_SIZE` strings "150" and "30". -/
def pagW : Frame :=
  { columns := ["NAME", "GS_SIZE"],
    rows := [[("NAME", .str "PAG1"), ("GS_SIZE", .str "150")],
             [("NAME", .str "PAG2"), ("GS_SIZE", .str "30")]] }

/-- The view result `renderView` produces on `pagW` with user range
`[100, 200]`. -/
def pagVC : ViewResult :=
  { table := { columns := ["NAME", "GS_SIZE"],
               rows := [[("NAME", .str "PAG1"), ("GS_SIZE", .int 150)],
                        [("NAME", .str "PAG2"), ("GS_SIZE", .int 30)]] },
    min_gs_size := 30, max_gs_size := 150,
    slider := { minValue := none, maxValue := some 150,
                defaultValue := (30, 150) },
    userRange := (100, 200),
    filtered := { columns := ["NAME", "GS_SIZE"],
                  rows := [[("NAME", .str "PAG1"), ("GS_SIZE", .int 150)]] } }

theorem gs_range_filter_exact_witness :
    pagVC.slider.defaultValue = (pagVC.min_gs_size, pagVC.max_gs_size) :=
  (gs_range_filter_exact pagW 100 200 pagVC rfl).2.1

/-- A concrete PAGER response frame with `GS_SIZE` strings "5" and "10". -/
def pag6W : Frame :=
  { columns := ["GS_SIZE"],
    rows := [[("GS_SIZE", .str "5")], [("GS_SIZE", .str "10")]] }

/-- The view result `renderView` produces on `pag6W` at the default range. -/
def pag6VC : ViewResult :=
  { table := { columns := ["GS_SIZE"],
               rows := [[("GS_SIZE", .int 5)], [("GS_SIZE", .int 10)]] },
    min_gs_size := 5, max_gs_size := 10,
    slider := { minValue := none, maxValue := some 10, defaultValue := (5, 10) },
    userRange := (5, 10),
    filtered := { columns := ["GS_SIZE"],
                  rows := [[("GS_SIZE", .int 5)], [("GS_SIZE", .int 10)]] } }

/-- C6 fails on the code: the script passes no `min_value` to the slider, so
the smallest selectable lower bound is the framework's default `0`, not the
observed minimum `5` of `GS_SIZE`. -/
theorem gs_slider_min_counterexample :
    renderView pag6W none = .ok pag6VC ∧
    pag6VC.slider.minValue = none ∧
    pag6VC.slider.effectiveMin = 0 ∧
    pag6VC.min_gs_size = 5 ∧ (0 : Int) ≠ 5 :=
  ⟨rfl, rfl, rfl, rfl, by decide⟩

/-- C6 (amended): the slider's `max_value` is the observed maximum of
`GS_SIZE` and its default value pair is the observed `[min, max]`, but no
`min_value` is passed, so the smallest selectable lower bound is the
framework default `0` rather than the observed minimum. -/
theorem gs_slider_bounds (raw : Frame) (user : Option (Int × Int))
    (v : ViewResult) (h : renderView raw user = .ok v) :
    v.slider.minValue = none ∧
    v.slider.effectiveMin = 0 ∧
    v.slider.maxValue = some v.max_gs_size ∧
    v.slider.defaultValue = (v.min_gs_size, v.max_gs_size) ∧
    ∃ sizes : List Int,
      v.table.colToList "GS_SIZE" = .ok (sizes.map Value.int) ∧
      v.max_gs_size ∈ sizes ∧ (∀ x ∈ sizes, x ≤ v.max_gs_size) ∧
      v.min_gs_size ∈ sizes ∧ (∀ x ∈ sizes, v.min_gs_size ≤ x) := by
  obtain ⟨hc, sizes, hcl, _, _, hmn, hmx, hslider, _, _, _⟩ :=
    renderView_ok_anatomy raw user v h
  obtain ⟨hmnmem, hmnle⟩ := listMin_spec sizes _ hmn
  obtain ⟨hmxmem, hmxle⟩ := listMax_spec sizes _ hmx
  rw [hslider]
  exact ⟨rfl, rfl, rfl, rfl, sizes, hcl, hmxmem, hmxle, hmnmem, hmnle⟩

theorem gs_slider_bounds_witness :
    pag6VC.slider.maxValue = some pag6VC.max_gs_size :=
  (gs_slider_bounds pag6W none pag6VC rfl).2.2.1

/-- C9: with the `GS_SIZE` column present, a cell that fails integer
coercion makes `astype` — and with it the whole render cycle — fail, and on
success every `GS_SIZE` cell of every row is an integer. -/
theorem gs_size_coercion_fatal (f : Frame)
    (hcol : f.columns.contains "GS_SIZE" = true) :
    ((∃ r ∈ f.rows, coerceValueInt32 ((rowGet r "GS_SIZE").getD .nan) = none) →
      coerceGsSize f = .error "ValueError" ∧
      ∀ u : Option (Int × Int), renderView f u = .error "ValueError") ∧
    (∀ po : Frame, coerceGsSize f = .ok po →
      po.rows.length = f.rows.length ∧
      ∀ r ∈ po.rows, ∃ k, rowGet r "GS_SIZE" = some (Value.int k)) := by
  constructor
  · rintro ⟨r, hr, hbad⟩
    have hnone := coerceRows_none f.rows r hr hbad
    have herr : coerceGsSize f = .error "ValueError" := by
      unfold coerceGsSize
      rw [hnone, if_pos hcol]
    refine ⟨herr, fun u => ?_⟩
    unfold renderView
    rw [herr]
  · intro po hok
    obtain ⟨_, _, hrows⟩ := coerceGsSize_ok f po hok
    exact coerceRows_ok f.rows po.rows hrows

/-- A PAGER response frame whose `GS_SIZE` cell is not a numeric string. -/
def badPagW : Frame :=
  { columns := ["GS_SIZE"], rows := [[("GS_SIZE", .str "abc")]] }

theorem gs_size_coercion_fatal_witness :
    coerceGsSize badPagW = .error "ValueError" :=
  ((gs_size_coercion_fatal badPagW rfl).1
    ⟨[("GS_SIZE", Value.str "abc")], by decide, rfl⟩).1

/-- C10: a successful view stage requires a non-empty enrichment record
set — `min`/`max` over the empty `GS_SIZE` list has no value, so the
filtered view is reachable only from non-empty PAGER output. -/
theorem empty_enrichment_fails (raw : Frame) (user : Option (Int × Int))
    (v : ViewResult) (h : renderView raw user = .ok v) :
    raw.rows ≠ [] ∧ v.table.rows ≠ [] ∧
    ∀ g : Frame, g.rows = [] → ∀ (u : Option (Int × Int)) (w : ViewResult),
      renderView g u ≠ .ok w := by
  have key : ∀ (g : Frame) (u : Option (Int × Int)) (w : ViewResult),
      renderView g u = .ok w → g.rows ≠ [] ∧ w.table.rows ≠ [] := by
    intro g u w hok
    obtain ⟨_, sizes, _, hlenraw, hlentab, hmn, _, _, _, _, _⟩ :=
      renderView_ok_anatomy g u w hok
    have hne : sizes ≠ [] := by
      intro he; rw [he] at hmn; exact Option.noConfusion hmn
    constructor
    · intro he
      rw [he] at hlenraw
      simp only [List.length_nil] at hlenraw
      exact hne (List.length_eq_zero.mp hlenraw)
    · intro he
      rw [he] at hlentab
      simp only [List.length_nil] at hlentab
      exact hne (List.length_eq_zero.mp hlentab)
  obtain ⟨h1, h2⟩ := key raw user v h
  refine ⟨h1, h2, ?_⟩
  intro g hg u w hok
  exact (key g u w hok).1 hg

theorem empty_enrichment_fails_witness : pagW.rows ≠ [] :=
  (empty_enrichment_fails pagW (some (100, 200)) pagVC rfl).1

/-! ## CSV export and reparse: claim C8

`filtered_output.to_csv(index=False)` (line 125) writes the header line
followed by one line per row, comma-separated, each line terminated by a
newline; a field containing a comma, a double quote, or a line break is
quoted, with inner double quotes doubled (the csv QUOTE_MINIMAL convention
pandas uses).  The reparse direction is a standard CSV reader over the same
convention. -/

/-- The double-quote character. -/
def quoteChar : Char := Char.ofNat 34

/-- Characters that force a CSV field to be quoted on write. -/
def isSpecialChar (c : Char) : Bool :=
  c == ',' || c == quoteChar || c == '\n' || c == '\r'

/-- Double every double-quote of a quoted field's content. -/
def escapeQuotes : List Char → List Char
  | [] => []
  | c :: t =>
    if c = quoteChar then quoteChar :: quoteChar :: escapeQuotes t
    else c :: escapeQuotes t

/-- Write one field: quote it exactly when it contains a special
character. -/
def encodeFieldChars (s : List Char) : List Char :=
  if s.any isSpecialChar then quoteChar :: (escapeQuotes s ++ [quoteChar])
  else s

/-- Write one record: fields joined by commas. -/
def encodeRecordChars : List (List Char) → List Char
  | [] => []
  | [f] => encodeFieldChars f
  | f :: g :: rest => encodeFieldChars f ++ ',' :: encodeRecordChars (g :: rest)

/-- Write a whole table: one line per record, each terminated by `\n`
(pandas emits a trailing newline after the last row as well). -/
def writeCsvChars : List (List (List Char)) → List Char
  | [] => []
  | rec :: rest => encodeRecordChars rec ++ '\n' :: writeCsvChars rest

/-- CSV reader states: at the start of a field, inside an unquoted field,
inside a quoted field, or just after the closing quote of a quoted field. -/
inductive CsvPState where
  | field
  | unq
  | quo
  | aft
deriving DecidableEq, Repr

/-- One-pass CSV reader.  Arguments: remaining input, state, current field
accumulator, current record accumulator, finished records.  `none` on
malformed input (EOF inside quotes, or a stray character after a closing
quote). -/
def runCsv : List Char → CsvPState → List Char → List (List Char) →
    List (List (List Char)) → Option (List (List (List Char)))
  | [], .field, fld, rec, recs =>
    if rec.isEmpty then some recs else some (recs ++ [rec ++ [fld]])
  | [], .unq, fld, rec, recs => some (recs ++ [rec ++ [fld]])
  | [], .quo, _, _, _ => none
  | [], .aft, fld, rec, recs => some (recs ++ [rec ++ [fld]])
  | c :: t, .field, fld, rec, recs =>
    if c = quoteChar then runCsv t .quo fld rec recs
    else if c = ',' then runCsv t .field [] (rec ++ [fld]) recs
    else if c = '\n' then runCsv t .field [] [] (recs ++ [rec ++ [fld]])
    else runCsv t .unq (fld ++ [c]) rec recs
  | c :: t, .unq, fld, rec, recs =>
    if c = ',' then runCsv t .field [] (rec ++ [fld]) recs
    else if c = '\n' then runCsv t .field [] [] (recs ++ [rec ++ [fld]])
    else runCsv t .unq (fld ++ [c]) rec recs
  | c :: t, .quo, fld, rec, recs =>
    if c = quoteChar then runCsv t .aft fld rec recs
    else runCsv t .quo (fld ++ [c]) rec recs
  | c :: t, .aft, fld, rec, recs =>
    if c = quoteChar then runCsv t .quo (fld ++ [c]) rec recs
    else if c = ',' then runCsv t .field [] (rec ++ [fld]) recs
    else if c = '\n' then runCsv t .field [] [] (recs ++ [rec ++ [fld]])
    else none

/-- Parse a whole CSV character stream. -/
def parseCsvChars (cs : List Char) : Option (List (List (List Char))) :=
  runCsv cs .field [] [] []

/-- How `to_csv` renders one cell as text: strings verbatim, integers in
decimal, missing values as the empty field. -/
def cellRender : Value → String
  | .str s => s
  | .int n => toString n
  | .nan => ""

/-- The table `to_csv(index=False)` serialises: the column-name header
record followed by each row's cells in column order. -/
def toCsvTable (f : Frame) : List (List String) :=
  f.columns :: f.rows.map (fun r =>
    f.columns.map (fun c => cellRender ((rowGet r c).getD .nan)))

/-- Serialise a table of strings to CSV text. -/
def writeCsv (t : List (List String)) : String :=
  String.mk (writeCsvChars (t.map (fun rec => rec.map String.data)))

/-- `csv = filtered_output.to_csv(index=False)` (line 125), applied to any
frame. -/
def csvExport (f : Frame) : String :=
  writeCsv (toCsvTable f)

/-- Reparse CSV text into a table of strings. -/
def parseCsv (s : String) : Option (List (List String)) :=
  (parseCsvChars s.data).map (fun recs => recs.map (fun rec => rec.map String.mk))

/-! ### Round-trip lemmas for the CSV codec -/

theorem not_special (c : Char) (h : isSpecialChar c = false) :
    ¬ c = ',' ∧ ¬ c = quoteChar ∧ ¬ c = '\n' ∧ ¬ c = '\r' := by
  unfold isSpecialChar at h
  simp only [Bool.or_eq_false_iff, beq_eq_false_iff_ne, ne_eq] at h
  obtain ⟨⟨⟨h1, h2⟩, h3⟩, h4⟩ := h
  exact ⟨h1, h2, h3, h4⟩

/-! One-step reduction lemmas for `runCsv`, one per state and input class. -/

theorem step_field_quote (t fld : List Char) (rec : List (List Char))
    (recs : List (List (List Char))) :
    runCsv (quoteChar :: t) .field fld rec recs = runCsv t .quo fld rec recs := rfl

theorem step_field_comma (t fld : List Char) (rec : List (List Char))
    (recs : List (List (List Char))) :
    runCsv (',' :: t) .field fld rec recs
      = runCsv t .field [] (rec ++ [fld]) recs := rfl

theorem step_field_nl (t fld : List Char) (rec : List (List Char))
    (recs : List (List (List Char))) :
    runCsv ('\n' :: t) .field fld rec recs
      = runCsv t .field [] [] (recs ++ [rec ++ [fld]]) := rfl

theorem step_field_other (c : Char) (t fld : List Char) (rec : List (List Char))
    (recs : List (List (List Char))) (hq : ¬ c = quoteChar) (hc : ¬ c = ',')
    (hn : ¬ c = '\n') :
    runCsv (c :: t) .field fld rec recs
      = runCsv t .unq (fld ++ [c]) rec recs := by
  simp only [runCsv]
  rw [if_neg hq, if_neg hc, if_neg hn]

theorem step_unq_comma (t fld : List Char) (rec : List (List Char))
    (recs : List (List (List Char))) :
    runCsv (',' :: t) .unq fld rec recs
      = runCsv t .field [] (rec ++ [fld]) recs := rfl

theorem step_unq_nl (t fld : List Char) (rec : List (List Char))
    (recs : List (List (List Char))) :
    runCsv ('\n' :: t) .unq fld rec recs
      = runCsv t .field [] [] (recs ++ [rec ++ [fld]]) := rfl

theorem step_unq_other (c : Char) (t fld : List Char) (rec : List (List Char))
    (recs : List (List (List Char))) (hc : ¬ c = ',') (hn : ¬ c = '\n') :
    runCsv (c :: t) .unq fld rec recs
      = runCsv t .unq (fld ++ [c]) rec recs := by
  simp only [runCsv]
  rw [if_neg hc, if_neg hn]

theorem step_quo_quote (t fld : List Char) (rec : List (List Char))
    (recs : List (List (List Char))) :
    runCsv (quoteChar :: t) .quo fld rec recs = runCsv t .aft fld rec recs := rfl

theorem step_quo_other (c : Char) (t fld : List Char) (rec : List (List Char))
    (recs : List (List (List Char))) (hq : ¬ c = quoteChar) :
    runCsv (c :: t) .quo fld rec recs
      = runCsv t .quo (fld ++ [c]) rec recs := by
  simp only [runCsv]
  rw [if_neg hq]

theorem step_aft_quote (t fld : List Char) (rec : List (List Char))
    (recs : List (List (List Char))) :
    runCsv (quoteChar :: t) .aft fld rec recs
      = runCsv t .quo (fld ++ [quoteChar]) rec recs := rfl

theorem step_aft_comma (t fld : List Char) (rec : List (List Char))
    (recs : List (List (List Char))) :
    runCsv (',' :: t) .aft fld rec recs
      = runCsv t .field [] (rec ++ [fld]) recs := rfl

theorem step_aft_nl (t fld : List Char) (rec : List (List Char))
    (recs : List (List (List Char))) :
    runCsv ('\n' :: t) .aft fld rec recs
      = runCsv t .field [] [] (recs ++ [rec ++ [fld]]) := rfl

/-- The reader inside a quoted field walks the escaped content and ends just
after the closing quote, having recovered the content verbatim. -/
theorem runCsv_quoted (cs : List Char) :
    ∀ (rest fld : List Char) (rec : List (List Char))
      (recs : List (List (List Char))),
      runCsv (escapeQuotes cs ++ quoteChar :: rest) .quo fld rec recs
        = runCsv rest .aft (fld ++ cs) rec recs := by
  induction cs with
  | nil =>
    intro rest fld rec recs
    simp only [escapeQuotes, List.nil_append, List.append_nil]
    exact step_quo_quote rest fld rec recs
  | cons c t ih =>
    intro rest fld rec recs
    by_cases hc : c = quoteChar
    · subst hc
      show runCsv ((quoteChar :: quoteChar :: escapeQuotes t) ++ quoteChar :: rest)
        .quo fld rec recs = runCsv rest .aft (fld ++ quoteChar :: t) rec recs
      rw [List.cons_append, List.cons_append, step_quo_quote, step_aft_quote]
      rw [ih rest (fld ++ [quoteChar]) rec recs, List.append_assoc,
        List.singleton_append]
    · simp only [escapeQuotes]
      rw [if_neg hc, List.cons_append]
      rw [step_quo_other c _ fld rec recs hc]
      rw [ih rest (fld ++ [c]) rec recs, List.append_assoc,
        List.singleton_append]

/-- The reader inside an unquoted field consumes a run of non-special
characters into the field accumulator. -/
theorem runCsv_unq_run (cs : List Char) (h : ∀ c ∈ cs, isSpecialChar c = false) :
    ∀ (rest fld : List Char) (rec : List (List Char))
      (recs : List (List (List Char))),
      runCsv (cs ++ rest) .unq fld rec recs
        = runCsv rest .unq (fld ++ cs) rec recs := by
  induction cs with
  | nil => intro rest fld rec recs; simp
  | cons c t ih =>
    intro rest fld rec recs
    obtain ⟨hc1, _, hc3, _⟩ := not_special c (h c (List.mem_cons_self c t))
    rw [List.cons_append, step_unq_other c _ fld rec recs hc1 hc3]
    rw [ih (fun x hx => h x (List.mem_cons_of_mem c hx)) rest (fld ++ [c]) rec recs,
      List.append_assoc, List.singleton_append]

/-- Reading one encoded field followed by a comma appends the field to the
current record and restarts at the next field. -/
theorem runCsv_field_comma (f : List Char) :
    ∀ (r : List Char) (rec : List (List Char))
      (recs : List (List (List Char))),
      runCsv (encodeFieldChars f ++ ',' :: r) .field [] rec recs
        = runCsv r .field [] (rec ++ [f]) recs := by
  intro r rec recs
  unfold encodeFieldChars
  by_cases hq : f.any isSpecialChar = true
  · rw [if_pos hq, List.cons_append, step_field_quote, List.append_assoc,
      List.singleton_append]
    rw [runCsv_quoted f (',' :: r) [] rec recs, List.nil_append, step_aft_comma]
  · rw [if_neg hq]
    have hall : ∀ c ∈ f, isSpecialChar c = false := by
      intro c hc
      cases hval : isSpecialChar c with
      | false => rfl
      | true => exact absurd (List.any_of_mem hc hval) hq
    cases f with
    | nil => rw [List.nil_append, step_field_comma]
    | cons c t =>
      obtain ⟨hc1, hc2, hc3, _⟩ := not_special c (hall c (List.mem_cons_self c t))
      rw [List.cons_append, step_field_other c _ [] rec recs hc2 hc1 hc3,
        List.nil_append]
      rw [runCsv_unq_run t (fun x hx => hall x (List.mem_cons_of_mem c hx))
        (',' :: r) [c] rec recs, List.singleton_append, step_unq_comma]

/-- Reading one encoded field followed by a newline finishes the current
record and restarts at the next record. -/
theorem runCsv_field_newline (f : List Char) :
    ∀ (r : List Char) (rec : List (List Char))
      (recs : List (List (List Char))),
      runCsv (encodeFieldChars f ++ '\n' :: r) .field [] rec recs
        = runCsv r .field [] [] (recs ++ [rec ++ [f]]) := by
  intro r rec recs
  unfold encodeFieldChars
  by_cases hq : f.any isSpecialChar = true
  · rw [if_pos hq, List.cons_append, step_field_quote, List.append_assoc,
      List.singleton_append]
    rw [runCsv_quoted f ('\n' :: r) [] rec recs, List.nil_append, step_aft_nl]
  · rw [if_neg hq]
    have hall : ∀ c ∈ f, isSpecialChar c = false := by
      intro c hc
      cases hval : isSpecialChar c with
      | false => rfl
      | true => exact absurd (List.any_of_mem hc hval) hq
    cases f with
    | nil => rw [List.nil_append, step_field_nl]
    | cons c t =>
      obtain ⟨hc1, hc2, hc3, _⟩ := not_special c (hall c (List.mem_cons_self c t))
      rw [List.cons_append, step_field_other c _ [] rec recs hc2 hc1 hc3,
        List.nil_append]
      rw [runCsv_unq_run t (fun x hx => hall x (List.mem_cons_of_mem c hx))
        ('\n' :: r) [c] rec recs, List.singleton_append, step_unq_nl]

/-- Reading one encoded record followed by its newline appends the record to
the finished records. -/
theorem runCsv_record (fields : List (List Char)) (hne : fields ≠ []) :
    ∀ (r : List Char) (rec : List (List Char))
      (recs : List (List (List Char))),
      runCsv (encodeRecordChars fields ++ '\n' :: r) .field [] rec recs
        = runCsv r .field [] [] (recs ++ [rec ++ fields]) := by
  induction fields with
  | nil => cases hne rfl
  | cons f rest ih =>
    intro r rec recs
    cases rest with
    | nil => exact runCsv_field_newline f r rec recs
    | cons g rest2 =>
      show runCsv ((encodeFieldChars f ++ ',' :: encodeRecordChars (g :: rest2))
        ++ '\n' :: r) .field [] rec recs = _
      rw [List.append_assoc, List.cons_append]
      rw [runCsv_field_comma f (encodeRecordChars (g :: rest2) ++ '\n' :: r) rec recs]
      rw [ih (by simp) r (rec ++ [f]) recs, List.append_assoc,
        List.singleton_append]

/-- Reading back a whole written table recovers it record for record. -/
theorem runCsv_write (t : List (List (List Char))) (h : ∀ rec ∈ t, rec ≠ []) :
    ∀ recs : List (List (List Char)),
      runCsv (writeCsvChars t) .field [] [] recs = some (recs ++ t) := by
  induction t with
  | nil => intro recs; simp [writeCsvChars, runCsv]
  | cons rec rest ih =>
    intro recs
    show runCsv (encodeRecordChars rec ++ '\n' :: writeCsvChars rest)
      .field [] [] recs = _
    rw [runCsv_record rec (h rec (List.mem_cons_self rec rest))
      (writeCsvChars rest) [] recs, List.nil_append]
    rw [ih (fun x hx => h x (List.mem_cons_of_mem rec hx)) (recs ++ [rec]),
      List.append_assoc, List.singleton_append]

theorem parseCsvChars_write (t : List (List (List Char)))
    (h : ∀ rec ∈ t, rec ≠ []) :
    parseCsvChars (writeCsvChars t) = some t := by
  unfold parseCsvChars
  rw [runCsv_write t h []]
  rfl

/-- String-level round trip: writing a table of string fields and reparsing
recovers it, provided every record has at least one field. -/
theorem parseCsv_writeCsv (tbl : List (List String))
    (h : ∀ rec ∈ tbl, rec ≠ []) :
    parseCsv (writeCsv tbl) = some tbl := by
  unfold parseCsv writeCsv
  rw [show (String.mk (writeCsvChars (tbl.map (fun rec => rec.map String.data)))).data
      = writeCsvChars (tbl.map (fun rec => rec.map String.data)) from rfl]
  rw [parseCsvChars_write (tbl.map (fun rec => rec.map String.data)) ?hne]
  case hne =>
    intro rec hrec
    rw [List.mem_map] at hrec
    obtain ⟨rec0, hmem, rfl⟩ := hrec
    intro he
    rw [List.map_eq_nil_iff] at he
    exact h rec0 hmem he
  simp only [Option.map_some']
  rw [List.map_map]
  have hcomp : ((fun rec : List (List Char) => rec.map String.mk) ∘
      (fun rec : List String => rec.map String.data)) = id := by
    funext rec
    simp only [Function.comp_apply]
    rw [List.map_map]
    have hmk : (String.mk ∘ String.data) = id := by
      funext s
      rfl
    rw [hmk, List.map_id]
    rfl
  rw [hcomp, List.map_id]

/-- C8: exporting any filtered frame with `to_csv(index=False)` and
reparsing the CSV text yields exactly the serialised table — the header of
column names and every row's cells in column order. -/
theorem csv_export_round_trip (f : Frame) (hcols : f.columns ≠ []) :
    parseCsv (csvExport f) = some (toCsvTable f) := by
  apply parseCsv_writeCsv
  intro rec hrec
  unfold toCsvTable at hrec
  rcases List.mem_cons.mp hrec with rfl | hmem
  · exact hcols
  · rw [List.mem_map] at hmem
    obtain ⟨r, _, rfl⟩ := hmem
    intro he
    rw [List.map_eq_nil_iff] at he
    exact hcols he

/-- A filtered frame holding commas, quotes and an integer cell. -/
def csvW : Frame :=
  { columns := ["NAME", "GS_SIZE"],
    rows := [[("NAME", .str "a,b\"c"), ("GS_SIZE", .int 150)]] }

theorem csv_export_round_trip_witness :
    parseCsv (csvExport csvW) = some (toCsvTable csvW) :=
  csv_export_round_trip csvW (by decide)

end UBrite
